import Mathlib

namespace PredDash

/-!
# Verification of the Prediction-Market Dashboard backend

Shallow embedding of the backend's registry and state-store code:

* `backend/app/manager.py`  (`SubscriptionManager`): subscriber sets per
  market, poller tasks, subscribe/unsubscribe/broadcast.
* `backend/app/state.py`    (`StateManager`): market catalog, per-key quote
  history ring buffers (`deque(maxlen=3600)`), last-write-wins order books.
* `backend/app/connectors/kalshi.py` and `polymarket.py`: price
  normalization and the quote derived by `poll_orderbook`.

Python dicts are modelled as association lists in insertion order (a new key
is appended at the end, an existing key is updated in place), sets of
websockets as duplicate-free lists, and float arithmetic as exact rational
arithmetic over `ℚ`.
-/

/-- `dict.get(k)`: first binding of `k` in an association list, if any. -/
def aget {β : Type} (l : List (String × β)) (k : String) : Option β :=
  match l with
  | [] => none
  | (k', v) :: rest => if k' = k then some v else aget rest k

/-- `dict[k] = v`: replace the binding of `k` in place, or append a new
binding at the end (Python dicts preserve insertion order). -/
def aset {β : Type} (l : List (String × β)) (k : String) (v : β) : List (String × β) :=
  match l with
  | [] => [(k, v)]
  | (k', v') :: rest => if k' = k then (k, v) :: rest else (k', v') :: aset rest k v

/-- `del dict[k]`: remove the binding of `k` (a Python dict holds at most
one binding per key, so filtering is faithful). -/
def adel {β : Type} (l : List (String × β)) (k : String) : List (String × β) :=
  l.filter (fun p => p.1 ≠ k)

/-! ## Schemas (`backend/app/schemas.py`)

Only the fields the verified operations read are carried; `bid`/`ask` are
always supplied by `update_quote`, so they are plain rationals here. -/

/-- `QuotePoint` (schemas.py): one point of a quote history. -/
structure QuotePoint where
  ts : ℚ
  mid : ℚ
  bid : ℚ
  ask : ℚ
deriving DecidableEq, Repr

/-- `OrderBookLevel` (schemas.py): price `p` and size `s`. -/
structure OrderBookLevel where
  p : ℚ
  s : ℚ
deriving DecidableEq, Repr

/-- `OrderBook` (schemas.py): one order-book snapshot. -/
structure OrderBook where
  market_id : String
  outcome_id : String
  ts : ℚ
  bids : List OrderBookLevel
  asks : List OrderBookLevel
deriving DecidableEq, Repr

/-- `Outcome` (schemas.py). -/
structure Outcome where
  outcome_id : String
  name : String
  price : ℚ
deriving DecidableEq, Repr

/-- `Market` (schemas.py); descriptive fields not read by the verified
operations (description, tags, volume, ...) are elided. -/
structure Market where
  market_id : String
  title : String
  source : String
  outcomes : List Outcome
deriving DecidableEq, Repr

/-! ## State store (`backend/app/state.py`) -/

/-- `MAX_HISTORY_POINTS = 3600` (state.py line 7). -/
def MAX_HISTORY_POINTS : Nat := 3600

/-- The mutable fields of the `StateManager` singleton (state.py lines 15-18).
`quote_history` keys are the strings built by `mkKey`. -/
structure SState where
  markets : List (String × Market)
  quote_history : List (String × List QuotePoint)
  latest_orderbooks : List (String × OrderBook)
deriving DecidableEq, Repr

/-- The state of a fresh `StateManager` (all stores empty). -/
def SState.init : SState := ⟨[], [], []⟩

/-- The f-string key `f"{market_id}:{outcome_id}"` (state.py lines 35, 63, 83, 89). -/
def mkKey (market_id outcome_id : String) : String :=
  market_id ++ ":" ++ outcome_id

/-- `deque(maxlen=cap).append(x)`: appending to a full deque discards the
element at the opposite (oldest) end. -/
def dequeAppend {α : Type} (cap : Nat) (xs : List α) (x : α) : List α :=
  if xs.length < cap then xs ++ [x] else xs.drop (xs.length + 1 - cap) ++ [x]

/-- `StateManager.update_market` (state.py lines 28-29). -/
def SState.update_market (s : SState) (m : Market) : SState :=
  { s with markets := aset s.markets m.market_id m }

/-- `StateManager.update_quote` (state.py lines 31-57): append one
`QuotePoint` to the key's ring buffer, creating it if absent. The returned
`QuoteMessage` (same fields) is left to the caller and not modelled; the
explicit `ts` argument models the `ts=None → time.time()` default. -/
def SState.update_quote (s : SState) (market_id outcome_id : String)
    (price_mid price_bid price_ask ts : ℚ) : SState :=
  let key := mkKey market_id outcome_id
  let hist := (aget s.quote_history key).getD []
  let point : QuotePoint := ⟨ts, price_mid, price_bid, price_ask⟩
  { s with quote_history := aset s.quote_history key (dequeAppend MAX_HISTORY_POINTS hist point) }

/-- `StateManager.update_orderbook` (state.py lines 59-80): store the new
snapshot under the key, replacing any previous one. -/
def SState.update_orderbook (s : SState) (market_id outcome_id : String)
    (bids asks : List OrderBookLevel) (ts : ℚ) : SState :=
  let key := mkKey market_id outcome_id
  { s with latest_orderbooks := aset s.latest_orderbooks key ⟨market_id, outcome_id, ts, bids, asks⟩ }

/-- `StateManager.get_history` (state.py lines 82-86): the full buffer for
the key (oldest-first), `[]` when absent. The function takes no range
argument in the source. -/
def SState.get_history (s : SState) (market_id outcome_id : String) : List QuotePoint :=
  match aget s.quote_history (mkKey market_id outcome_id) with
  | some hist => hist
  | none => []

/-- `StateManager.get_orderbook` (state.py lines 88-90). -/
def SState.get_orderbook (s : SState) (market_id outcome_id : String) : Option OrderBook :=
  aget s.latest_orderbooks (mkKey market_id outcome_id)

/-- One mutating call on the `StateManager`. -/
inductive SOp where
  | upMarket (m : Market)
  | upQuote (market_id outcome_id : String) (mid bid ask ts : ℚ)
  | upBook (market_id outcome_id : String) (bids asks : List OrderBookLevel) (ts : ℚ)

/-- Apply one call. -/
def SState.apply (s : SState) : SOp → SState
  | .upMarket m => s.update_market m
  | .upQuote market_id outcome_id mid bid ask ts =>
      s.update_quote market_id outcome_id mid bid ask ts
  | .upBook market_id outcome_id bids asks ts =>
      s.update_orderbook market_id outcome_id bids asks ts

/-- Run a sequence of calls from the fresh state. -/
def runS (ops : List SOp) : SState := ops.foldl SState.apply SState.init

/-! ## Kalshi price normalization (`backend/app/connectors/kalshi.py`) -/

/-- A Kalshi cent-price field converted to `[0,1]`
(kalshi.py lines 253-254): `float(data.get("yes_bid", 0)) / 100.0 if
data.get("yes_bid") else 0`. Python truthiness makes a missing field and a
literal `0` take the `else` branch alike, so the field is an `Option Nat`
and `some 0` is treated like `none`. -/
def kalshiCents (field : Option Nat) : ℚ :=
  match field with
  | some n => if n = 0 then 0 else (n : ℚ) / 100
  | none => 0

/-- kalshi.py line 255:
`yes_price = (yes_bid + yes_ask) / 2 if yes_bid and yes_ask else yes_bid or yes_ask`. -/
def kalshiYesPrice (yes_bid_field yes_ask_field : Option Nat) : ℚ :=
  let yes_bid := kalshiCents yes_bid_field
  let yes_ask := kalshiCents yes_ask_field
  if yes_bid ≠ 0 ∧ yes_ask ≠ 0 then (yes_bid + yes_ask) / 2
  else if yes_bid ≠ 0 then yes_bid else yes_ask

/-- kalshi.py line 275: the no outcome's price
`1.0 - yes_price if yes_price else 0`. -/
def kalshiNoPrice (yes_bid_field yes_ask_field : Option Nat) : ℚ :=
  let yes_price := kalshiYesPrice yes_bid_field yes_ask_field
  if yes_price ≠ 0 then 1 - yes_price else 0

/-! ## Quote derivation in `poll_orderbook` (both connectors) -/

/-- `b.p ≤ a.p`: the descending order used for bids
(`bids.sort(key=lambda x: x.p, reverse=True)`). -/
def levelGe (a b : OrderBookLevel) : Prop := b.p ≤ a.p

/-- `a.p ≤ b.p`: the ascending order used for asks
(`asks.sort(key=lambda x: x.p)`). -/
def levelLe (a b : OrderBookLevel) : Prop := a.p ≤ b.p

instance : DecidableRel levelGe :=
  fun a b => inferInstanceAs (Decidable (b.p ≤ a.p))

instance : DecidableRel levelLe :=
  fun a b => inferInstanceAs (Decidable (a.p ≤ b.p))

instance : IsTotal OrderBookLevel levelGe := ⟨fun a b => le_total b.p a.p⟩

instance : IsTotal OrderBookLevel levelLe := ⟨fun a b => le_total a.p b.p⟩

instance : IsTrans OrderBookLevel levelGe := ⟨fun _ _ _ h1 h2 => le_trans h2 h1⟩

instance : IsTrans OrderBookLevel levelLe := ⟨fun _ _ _ h1 h2 => le_trans h1 h2⟩

/-- Bids sorted highest price first. -/
def sortLevelsDesc (l : List OrderBookLevel) : List OrderBookLevel :=
  List.insertionSort levelGe l

/-- Asks sorted lowest price first. -/
def sortLevelsAsc (l : List OrderBookLevel) : List OrderBookLevel :=
  List.insertionSort levelLe l

/-- The quote `PolymarketConnector.poll_orderbook` records via `update_quote`
(polymarket.py lines 408-425), as a function of the parsed book sides:
both sides → mid = average of the best levels; one side → that side's best
price as mid, bid and ask; empty book → no quote. -/
def polyDeriveQuote (bids asks : List OrderBookLevel) : Option (ℚ × ℚ × ℚ) :=
  match sortLevelsDesc bids, sortLevelsAsc asks with
  | bb :: _, ba :: _ => some ((bb.p + ba.p) / 2, bb.p, ba.p)
  | bb :: _, [] => some (bb.p, bb.p, bb.p)
  | [], ba :: _ => some (ba.p, ba.p, ba.p)
  | [], [] => none

/-- The quote `KalshiConnector.poll_orderbook` records via `update_quote`
(kalshi.py lines 316-323): only `if yes_bids and yes_asks` is a quote
recorded at all; a single-sided book records none. -/
def kalshiDeriveQuote (yes_bids yes_asks : List OrderBookLevel) : Option (ℚ × ℚ × ℚ) :=
  match sortLevelsDesc yes_bids, sortLevelsAsc yes_asks with
  | bb :: _, ba :: _ => some ((bb.p + ba.p) / 2, bb.p, ba.p)
  | _, _ => none

/-! ## Subscription registry (`backend/app/manager.py`)

Websockets and asyncio tasks are plain ids (`Nat`). Two instrumentation
fields record what the claims talk about: `spawn_count` counts invocations
of the injected spawner, and `cancelled` lists the task handles that
`_stop_polling` cancelled and awaited. -/

/-- The mutable fields of the `SubscriptionManager` singleton
(manager.py lines 12-14) plus the two instrumentation fields. -/
structure MState where
  subscriptions : List (String × List Nat)
  polling_tasks : List (String × Nat)
  spawn_count : Nat
  cancelled : List Nat
deriving DecidableEq, Repr

/-- A fresh `SubscriptionManager` (both maps empty). -/
def MState.init : MState := ⟨[], [], 0, []⟩

/-- The injected spawner (main.py lines 93-104): from the market id and the
invocation index to the task it returns, if any — main.py's spawner returns
`None` when the market is not in the state catalog. `set_spawner` runs at
startup (main.py line 106), so a spawner is always present. -/
def Spawner : Type := String → Nat → Option Nat

/-- `SubscriptionManager._start_polling` (manager.py lines 51-59): return
early when a handle is already recorded; otherwise invoke the spawner and
record the returned task if there is one. -/
def start_polling (spawner : Spawner) (market_id : String) (s : MState) : MState :=
  match aget s.polling_tasks market_id with
  | some _ => s
  | none =>
    match spawner market_id s.spawn_count with
    | some t =>
        { s with spawn_count := s.spawn_count + 1,
                 polling_tasks := aset s.polling_tasks market_id t }
    | none => { s with spawn_count := s.spawn_count + 1 }

/-- `SubscriptionManager._stop_polling` (manager.py lines 61-70): cancel the
recorded task, await its cancellation (the `CancelledError` is swallowed),
and discard the handle. -/
def stop_polling (market_id : String) (s : MState) : MState :=
  match aget s.polling_tasks market_id with
  | some t =>
      { s with cancelled := s.cancelled ++ [t],
               polling_tasks := adel s.polling_tasks market_id }
  | none => s

/-- `SubscriptionManager.subscribe` (manager.py lines 22-31): create the
subscriber set if absent, add the websocket, and if the set size is now 1,
call `_start_polling`. -/
def subscribe (spawner : Spawner) (market_id : String) (ws : Nat) (s : MState) : MState :=
  let cur := (aget s.subscriptions market_id).getD []
  let cur2 := if ws ∈ cur then cur else cur ++ [ws]
  let s1 := { s with subscriptions := aset s.subscriptions market_id cur2 }
  if cur2.length = 1 then start_polling spawner market_id s1 else s1

/-- `SubscriptionManager.unsubscribe` (manager.py lines 33-42): remove the
websocket if present; if the set is now empty, call `_stop_polling` and
delete the entry. -/
def unsubscribe (market_id : String) (ws : Nat) (s : MState) : MState :=
  match aget s.subscriptions market_id with
  | none => s
  | some subs =>
    let subs2 := subs.erase ws
    let s1 := { s with subscriptions := aset s.subscriptions market_id subs2 }
    if subs2.length = 0 then
      let s2 := stop_polling market_id s1
      { s2 with subscriptions := adel s2.subscriptions market_id }
    else s1

/-- `SubscriptionManager.unsubscribe_from_all` (manager.py lines 44-49):
iterate over a snapshot of the keys and unsubscribe the websocket from each
market whose current set contains it. -/
def unsubscribe_from_all (ws : Nat) (s : MState) : MState :=
  (s.subscriptions.map Prod.fst).foldl
    (fun acc market_id =>
      match aget acc.subscriptions market_id with
      | some subs => if ws ∈ subs then unsubscribe market_id ws acc else acc
      | none => acc) s

/-- `SubscriptionManager.broadcast` (manager.py lines 72-82): send to every
subscriber of the market, collect the sockets whose send raised, then
unsubscribe each of them from this market. `deads` is the set of sockets
whose `send_json` fails; the second component lists the sockets the message
was delivered to. No exception escapes: a failed send only marks the socket
dead. -/
def broadcast (market_id : String) (deads : List Nat) (s : MState) :
    MState × List Nat :=
  match aget s.subscriptions market_id with
  | none => (s, [])
  | some conns =>
      let dead := conns.filter (fun c => deads.contains c)
      let delivered := conns.filter (fun c => !(deads.contains c))
      (dead.foldl (fun acc w => unsubscribe market_id w acc) s, delivered)

/-- One call on the `SubscriptionManager`. -/
inductive MOp where
  | sub (market_id : String) (ws : Nat)
  | unsub (market_id : String) (ws : Nat)
  | unsubAll (ws : Nat)
  | bcast (market_id : String) (deads : List Nat)

/-- Apply one call. -/
def MState.apply (spawner : Spawner) (s : MState) : MOp → MState
  | .sub market_id ws => subscribe spawner market_id ws s
  | .unsub market_id ws => unsubscribe market_id ws s
  | .unsubAll ws => unsubscribe_from_all ws s
  | .bcast market_id deads => (broadcast market_id deads s).1

/-- Run a sequence of calls from the fresh registry. -/
def runM (spawner : Spawner) (ops : List MOp) : MState :=
  ops.foldl (MState.apply spawner) MState.init

/-- A spawner that always returns a fresh task handle (the normal case:
every subscribed market is in the catalog). -/
def spawner1 : Spawner := fun _ n => some n

/-- A spawner whose first invocation returns no task and whose later
invocations return task 1 (main.py returns `None` while the market is not
yet in the catalog). -/
def spawner0 : Spawner := fun _ n => if n = 0 then none else some 1

/-- Registry invariant: every recorded subscriber set is nonempty and
duplicate-free, both maps have duplicate-free keys, and a market without a
subscriber set has no poller task. -/
def Inv (s : MState) : Prop :=
  (∀ market_id subs, aget s.subscriptions market_id = some subs → subs ≠ [] ∧ subs.Nodup)
  ∧ (s.subscriptions.map Prod.fst).Nodup
  ∧ (s.polling_tasks.map Prod.fst).Nodup
  ∧ (∀ market_id, aget s.subscriptions market_id = none →
      aget s.polling_tasks market_id = none)

/-- With a spawner that always returns a handle, every market with a
subscriber set also has a recorded poller task. -/
def TasksMatch (s : MState) : Prop :=
  ∀ market_id subs, aget s.subscriptions market_id = some subs →
    (aget s.polling_tasks market_id).isSome

/-- `ws` is not among `market_id`'s subscribers (vacuously so when the
market has no subscriber set). -/
def NotSub (market_id : String) (ws : Nat) (s : MState) : Prop :=
  ∀ conns, aget s.subscriptions market_id = some conns → ws ∉ conns

/-! ## Lemmas and claim theorems -/

theorem aget_aset_self {β : Type} (l : List (String × β)) (k : String) (v : β) :
    aget (aset l k v) k = some v := by
  induction l with
  | nil => simp [aset, aget]
  | cons p rest ih =>
    obtain ⟨k', v'⟩ := p
    by_cases h : k' = k
    · simp [aset, h, aget]
    · simp [aset, h, aget, ih]

theorem aget_aset_ne {β : Type} (l : List (String × β)) {k k' : String} (v : β)
    (h : k' ≠ k) : aget (aset l k v) k' = aget l k' := by
  have hkk : ¬ k = k' := fun hh => h hh.symm
  induction l with
  | nil => simp [aset, aget, hkk]
  | cons p rest ih =>
    obtain ⟨k'', v''⟩ := p
    by_cases hk : k'' = k
    · subst hk
      simp [aset, aget, hkk]
    · simp only [aset, if_neg hk, aget]
      by_cases hk' : k'' = k'
      · simp [hk']
      · simp [hk', ih]

theorem aget_adel_self {β : Type} (l : List (String × β)) (k : String) :
    aget (adel l k) k = none := by
  induction l with
  | nil => simp [adel, aget]
  | cons p rest ih =>
    obtain ⟨k', v'⟩ := p
    by_cases h : k' = k
    · simpa [adel, List.filter_cons, h] using ih
    · simpa [adel, List.filter_cons, aget, h] using ih

theorem aget_adel_ne {β : Type} (l : List (String × β)) {k k' : String}
    (h : k' ≠ k) : aget (adel l k) k' = aget l k' := by
  induction l with
  | nil => simp [adel, aget]
  | cons p rest ih =>
    obtain ⟨k'', v''⟩ := p
    by_cases hk : k'' = k
    · have hkk : ¬ k = k' := fun hh => h hh.symm
      simpa [adel, List.filter_cons, aget, hk, hkk] using ih
    · by_cases hk' : k'' = k'
      · simp [adel, List.filter_cons, aget, hk, hk', h]
      · simpa [adel, List.filter_cons, aget, hk, hk'] using ih

theorem aset_eq_of_aget {β : Type} {l : List (String × β)} {k : String} {v : β}
    (h : aget l k = some v) : aset l k v = l := by
  induction l with
  | nil => simp [aget] at h
  | cons p rest ih =>
    obtain ⟨k', v'⟩ := p
    by_cases hk : k' = k
    · subst hk
      simp [aget] at h
      simp [aset, h]
    · simp [aget, hk] at h
      simp [aset, hk, ih h]

theorem mem_aset {β : Type} {q : String × β} {l : List (String × β)}
    {k : String} {v : β} (h : q ∈ aset l k v) : q ∈ l ∨ q = (k, v) := by
  induction l with
  | nil => simpa [aset] using h
  | cons p rest ih =>
    obtain ⟨k', v'⟩ := p
    by_cases hk : k' = k
    · simp [aset, hk] at h
      rcases h with h | h
      · exact Or.inr (by simp [h])
      · exact Or.inl (List.mem_cons_of_mem _ h)
    · simp only [aset, if_neg hk, List.mem_cons] at h
      rcases h with h | h
      · exact Or.inl (List.mem_cons.mpr (Or.inl h))
      · rcases ih h with h1 | h1
        · exact Or.inl (List.mem_cons_of_mem _ h1)
        · exact Or.inr h1

theorem keys_aset_nodup {β : Type} {l : List (String × β)} (k : String) (v : β)
    (h : (l.map Prod.fst).Nodup) : ((aset l k v).map Prod.fst).Nodup := by
  induction l with
  | nil => simp [aset]
  | cons p rest ih =>
    obtain ⟨k', v'⟩ := p
    simp only [List.map_cons, List.nodup_cons] at h
    by_cases hk : k' = k
    · subst hk
      simpa [aset] using h
    · have hmem : k' ∉ (aset rest k v).map Prod.fst := by
        intro hmem
        rcases List.mem_map.mp hmem with ⟨q, hq, hq1⟩
        rcases mem_aset hq with hq' | hq'
        · exact h.1 (List.mem_map.mpr ⟨q, hq', hq1⟩)
        · exact hk (by rw [← hq1, hq'])
      simp only [aset, if_neg hk, List.map_cons, List.nodup_cons]
      exact ⟨hmem, ih h.2⟩

theorem keys_adel_nodup {β : Type} {l : List (String × β)} (k : String)
    (h : (l.map Prod.fst).Nodup) : ((adel l k).map Prod.fst).Nodup := by
  have hsub : (adel l k).Sublist l := List.filter_sublist l
  exact (hsub.map Prod.fst).nodup h

theorem filter_key_length_le_one {β : Type} {l : List (String × β)} (k : String)
    (h : (l.map Prod.fst).Nodup) :
    (l.filter (fun p => p.1 == k)).length ≤ 1 := by
  induction l with
  | nil => simp
  | cons p rest ih =>
    obtain ⟨k', v'⟩ := p
    simp only [List.map_cons, List.nodup_cons] at h
    by_cases hk : k' = k
    · subst hk
      have hnil : rest.filter (fun p => p.1 == k') = [] := by
        apply List.filter_eq_nil_iff.mpr
        intro q hq hbeq
        exact h.1 (List.mem_map.mpr ⟨q, hq, (by simpa using hbeq)⟩)
      simp [List.filter_cons, hnil]
    · simpa [List.filter_cons, hk] using ih h.2

theorem foldl_preserve {α σ : Type} (P : σ → Prop) {f : σ → α → σ}
    (hstep : ∀ s x, P s → P (f s x)) :
    ∀ (l : List α) (s : σ), P s → P (l.foldl f s) := by
  intro l
  induction l with
  | nil => intro s hs; simpa using hs
  | cons x xs ih => intro s hs; exact ih (f s x) (hstep s x hs)

theorem dequeAppend_length_le {α : Type} (cap : Nat) (xs : List α) (x : α)
    (hcap : 0 < cap) (h : xs.length ≤ cap) :
    (dequeAppend cap xs x).length ≤ cap := by
  unfold dequeAppend
  by_cases hlt : xs.length < cap
  · simp only [if_pos hlt, List.length_append, List.length_cons, List.length_nil]
    omega
  · have hx : xs.length = cap := le_antisymm h (not_lt.mp hlt)
    simp only [if_neg hlt, List.length_append, List.length_drop, List.length_cons,
      List.length_nil]
    omega

theorem dequeAppend_of_lt {α : Type} {cap : Nat} {xs : List α} (x : α)
    (h : xs.length < cap) : dequeAppend cap xs x = xs ++ [x] := by
  simp [dequeAppend, h]

theorem dequeAppend_of_full {α : Type} {cap : Nat} {xs : List α} (x : α)
    (h : xs.length = cap) :
    dequeAppend cap xs x = xs.drop 1 ++ [x] := by
  have h1 : ¬ xs.length < cap := by omega
  have h2 : xs.length + 1 - cap = 1 := by omega
  simp [dequeAppend, h1, h2]

/-- Invariant: every quote-history buffer reachable from the fresh state has
at most `MAX_HISTORY_POINTS` points. -/
theorem runS_history_len_le (ops : List SOp) :
    ∀ key : String,
      ((aget (runS ops).quote_history key).getD []).length ≤ MAX_HISTORY_POINTS := by
  unfold runS
  refine foldl_preserve
    (fun s => ∀ key : String,
      ((aget s.quote_history key).getD []).length ≤ MAX_HISTORY_POINTS)
    ?_ ops SState.init ?_
  · intro s op hP
    cases op with
    | upMarket m =>
      simpa [SState.apply, SState.update_market] using hP
    | upBook market_id outcome_id bids asks ts =>
      simpa [SState.apply, SState.update_orderbook] using hP
    | upQuote market_id outcome_id mid bid ask ts =>
      intro key
      by_cases hkey : key = mkKey market_id outcome_id
      · subst hkey
        simp only [SState.apply, SState.update_quote, aget_aset_self, Option.getD_some]
        exact dequeAppend_length_le _ _ _ (by norm_num [MAX_HISTORY_POINTS]) (hP _)
      · simpa [SState.apply, SState.update_quote, aget_aset_ne _ _ hkey] using hP key
  · intro key
    simp [SState.init, aget]

/-- C3. For every `(market_id, outcome_id)` key and every sequence of
`update_quote` calls on it, the quote history is a FIFO ring buffer of
capacity 3600: each call appends one `QuotePoint` (creating the buffer if
absent), the length never exceeds 3600, and an append to a full buffer
evicts exactly the oldest point. -/
theorem update_quote_ring_buffer :
    (∀ (ops : List SOp) (key : String),
        ((aget (runS ops).quote_history key).getD []).length ≤ MAX_HISTORY_POINTS)
    ∧ (∀ (s : SState) (market_id outcome_id : String) (mid bid ask ts : ℚ),
        aget (s.update_quote market_id outcome_id mid bid ask ts).quote_history
            (mkKey market_id outcome_id)
          = some (dequeAppend MAX_HISTORY_POINTS
              ((aget s.quote_history (mkKey market_id outcome_id)).getD [])
              ⟨ts, mid, bid, ask⟩))
    ∧ (∀ (hist : List QuotePoint) (x : QuotePoint),
        (hist.length < MAX_HISTORY_POINTS →
          dequeAppend MAX_HISTORY_POINTS hist x = hist ++ [x])
        ∧ (hist.length = MAX_HISTORY_POINTS →
          dequeAppend MAX_HISTORY_POINTS hist x = hist.drop 1 ++ [x])) := by
  refine ⟨runS_history_len_le, ?_, ?_⟩
  · intro s market_id outcome_id mid bid ask ts
    simp [SState.update_quote, aget_aset_self]
  · intro hist x
    exact ⟨fun h => dequeAppend_of_lt x h, fun h => dequeAppend_of_full x h⟩

theorem update_quote_ring_buffer_witness :
    ((List.replicate MAX_HISTORY_POINTS (⟨0, 0, 0, 0⟩ : QuotePoint)).length
        = MAX_HISTORY_POINTS)
    ∧ dequeAppend MAX_HISTORY_POINTS
          (List.replicate MAX_HISTORY_POINTS (⟨0, 0, 0, 0⟩ : QuotePoint)) ⟨1, 2, 3, 4⟩
        = (List.replicate MAX_HISTORY_POINTS (⟨0, 0, 0, 0⟩ : QuotePoint)).drop 1
            ++ [⟨1, 2, 3, 4⟩] :=
  ⟨by simp,
    (update_quote_ring_buffer.2.2
      (List.replicate MAX_HISTORY_POINTS ⟨0, 0, 0, 0⟩) ⟨1, 2, 3, 4⟩).2 (by simp)⟩

/-- C4 (code behaviour). `StateManager.get_history` in the source takes no
`range_seconds` argument: it returns the full buffer for the key,
oldest-first, unconditionally. The second conjunct evaluates it on a state
holding one point 100000 seconds older than the newest: the old point is
still returned, so no time-range filtering of any kind occurs (its caller
`api.py` line 281 nevertheless passes a third `range_seconds` argument). -/
theorem get_history_returns_full_buffer :
    (∀ (s : SState) (market_id outcome_id : String),
        s.get_history market_id outcome_id
          = (aget s.quote_history (mkKey market_id outcome_id)).getD [])
    ∧ ((SState.init.update_quote "m" "o" 1 1 1 0).update_quote "m" "o" 2 2 2 100000).get_history
          "m" "o"
        = [⟨0, 1, 1, 1⟩, ⟨100000, 2, 2, 2⟩] := by
  constructor
  · intro s market_id outcome_id
    unfold SState.get_history
    cases h : aget s.quote_history (mkKey market_id outcome_id) <;> simp [h]
  · decide

/-- C8. `update_orderbook` is last-write-wins per key: after two successive
calls for the same key, `get_orderbook` returns exactly the second snapshot,
and every reachable state retains at most one snapshot per key. -/
theorem update_orderbook_last_write_wins :
    (∀ (s : SState) (market_id outcome_id : String)
        (b1 a1 : List OrderBookLevel) (t1 : ℚ)
        (b2 a2 : List OrderBookLevel) (t2 : ℚ),
        ((s.update_orderbook market_id outcome_id b1 a1 t1).update_orderbook
            market_id outcome_id b2 a2 t2).get_orderbook market_id outcome_id
          = some ⟨market_id, outcome_id, t2, b2, a2⟩)
    ∧ (∀ (ops : List SOp) (key : String),
        ((runS ops).latest_orderbooks.filter (fun p => p.1 == key)).length ≤ 1) := by
  constructor
  · intro s market_id outcome_id b1 a1 t1 b2 a2 t2
    simp [SState.update_orderbook, SState.get_orderbook, aget_aset_self]
  · intro ops key
    have hnodup : ((runS ops).latest_orderbooks.map Prod.fst).Nodup := by
      unfold runS
      refine foldl_preserve (fun s => (s.latest_orderbooks.map Prod.fst).Nodup)
        ?_ ops SState.init ?_
      · intro s op hP
        cases op with
        | upMarket m => simpa [SState.apply, SState.update_market] using hP
        | upQuote market_id outcome_id mid bid ask ts =>
          simpa [SState.apply, SState.update_quote] using hP
        | upBook market_id outcome_id bids asks ts =>
          exact keys_aset_nodup _ _ hP
      · simp [SState.init]
    exact filter_key_length_le_one key hnodup

/-- C10. Frame conditions: `update_quote` touches only its own key of
`quote_history`; `update_orderbook` touches only its own key of
`latest_orderbooks`; `update_market` touches neither `quote_history` nor
`latest_orderbooks`. -/
theorem state_updates_frame (s : SState) (market_id outcome_id : String)
    (mid bid ask ts : ℚ) (m : Market) (bids asks : List OrderBookLevel) :
    ((s.update_quote market_id outcome_id mid bid ask ts).markets = s.markets
      ∧ (s.update_quote market_id outcome_id mid bid ask ts).latest_orderbooks
          = s.latest_orderbooks
      ∧ ∀ k : String, k ≠ mkKey market_id outcome_id →
          aget (s.update_quote market_id outcome_id mid bid ask ts).quote_history k
            = aget s.quote_history k)
    ∧ ((s.update_orderbook market_id outcome_id bids asks ts).markets = s.markets
      ∧ (s.update_orderbook market_id outcome_id bids asks ts).quote_history
          = s.quote_history
      ∧ ∀ k : String, k ≠ mkKey market_id outcome_id →
          aget (s.update_orderbook market_id outcome_id bids asks ts).latest_orderbooks k
            = aget s.latest_orderbooks k)
    ∧ ((s.update_market m).quote_history = s.quote_history
      ∧ (s.update_market m).latest_orderbooks = s.latest_orderbooks) := by
  refine ⟨⟨rfl, rfl, ?_⟩, ⟨rfl, rfl, ?_⟩, rfl, rfl⟩
  · intro k hk
    simp [SState.update_quote, aget_aset_ne _ _ hk]
  · intro k hk
    simp [SState.update_orderbook, aget_aset_ne _ _ hk]

theorem sortLevelsDesc_head_max {bids : List OrderBookLevel}
    {bb : OrderBookLevel} {bt : List OrderBookLevel}
    (h : sortLevelsDesc bids = bb :: bt) :
    (∀ x ∈ bids, x.p ≤ bb.p) ∧ bb ∈ bids := by
  have hs := List.sorted_insertionSort levelGe bids
  have hperm := List.perm_insertionSort levelGe bids
  rw [sortLevelsDesc] at h
  rw [h] at hs hperm
  constructor
  · intro x hx
    have hx' : x ∈ bb :: bt := hperm.mem_iff.mpr hx
    rcases List.mem_cons.mp hx' with rfl | hx'
    · exact le_refl _
    · exact List.rel_of_sorted_cons hs x hx'
  · exact hperm.subset (List.mem_cons_self bb bt)

theorem sortLevelsAsc_head_min {asks : List OrderBookLevel}
    {ba : OrderBookLevel} {ta : List OrderBookLevel}
    (h : sortLevelsAsc asks = ba :: ta) :
    (∀ x ∈ asks, ba.p ≤ x.p) ∧ ba ∈ asks := by
  have hs := List.sorted_insertionSort levelLe asks
  have hperm := List.perm_insertionSort levelLe asks
  rw [sortLevelsAsc] at h
  rw [h] at hs hperm
  constructor
  · intro x hx
    have hx' : x ∈ ba :: ta := hperm.mem_iff.mpr hx
    rcases List.mem_cons.mp hx' with rfl | hx'
    · exact le_refl _
    · exact List.rel_of_sorted_cons hs x hx'
  · exact hperm.subset (List.mem_cons_self ba ta)

theorem state_updates_frame_witness :
    aget ((SState.init.update_quote "a" "b" 1 1 1 0).quote_history) "x:y"
        = aget SState.init.quote_history "x:y"
    ∧ aget ((SState.init.update_orderbook "a" "b" [] [] 0).latest_orderbooks) "x:y"
        = aget SState.init.latest_orderbooks "x:y" :=
  ⟨(state_updates_frame SState.init "a" "b" 1 1 1 0 ⟨"a", "t", "kalshi", []⟩ [] []).1.2.2
      "x:y" (by decide),
    (state_updates_frame SState.init "a" "b" 1 1 1 0 ⟨"a", "t", "kalshi", []⟩ [] []).2.1.2.2
      "x:y" (by decide)⟩

theorem stop_polling_subscriptions (market_id : String) (s : MState) :
    (stop_polling market_id s).subscriptions = s.subscriptions := by
  unfold stop_polling
  cases h : aget s.polling_tasks market_id <;> simp

theorem stop_polling_tasks_none (market_id : String) (s : MState) :
    aget (stop_polling market_id s).polling_tasks market_id = none := by
  unfold stop_polling
  cases h : aget s.polling_tasks market_id with
  | none => simpa using h
  | some t => simpa using aget_adel_self s.polling_tasks market_id

theorem stop_polling_tasks_ne {market_id m' : String} (s : MState)
    (h : m' ≠ market_id) :
    aget (stop_polling market_id s).polling_tasks m'
      = aget s.polling_tasks m' := by
  unfold stop_polling
  cases hh : aget s.polling_tasks market_id with
  | none => rfl
  | some t => simpa using aget_adel_ne s.polling_tasks h

theorem stop_polling_keys_nodup (market_id : String) {s : MState}
    (h : (s.polling_tasks.map Prod.fst).Nodup) :
    ((stop_polling market_id s).polling_tasks.map Prod.fst).Nodup := by
  unfold stop_polling
  cases hh : aget s.polling_tasks market_id with
  | none => exact h
  | some t => simpa using keys_adel_nodup market_id h

theorem inv_aset_subs {s : MState} (market_id : String) {cur2 : List Nat}
    (hInv : Inv s) (hne : cur2 ≠ []) (hnd : cur2.Nodup) :
    Inv { s with subscriptions := aset s.subscriptions market_id cur2 } := by
  obtain ⟨h1, h2, h3, h4⟩ := hInv
  refine ⟨?_, keys_aset_nodup _ _ h2, h3, ?_⟩
  · intro m' subs' hm'
    by_cases hmm : m' = market_id
    · subst hmm
      rw [aget_aset_self] at hm'
      cases hm'
      exact ⟨hne, hnd⟩
    · rw [aget_aset_ne _ _ hmm] at hm'
      exact h1 m' subs' hm'
  · intro m' hm'
    by_cases hmm : m' = market_id
    · subst hmm
      rw [aget_aset_self] at hm'
      cases hm'
    · rw [aget_aset_ne _ _ hmm] at hm'
      exact h4 m' hm'

theorem inv_start_polling (spawner : Spawner) (market_id : String) {s : MState}
    (hInv : Inv s) (hsub : aget s.subscriptions market_id ≠ none) :
    Inv (start_polling spawner market_id s) := by
  unfold start_polling
  cases hpt : aget s.polling_tasks market_id with
  | some t => exact hInv
  | none =>
    cases hsp : spawner market_id s.spawn_count with
    | none => exact hInv
    | some t =>
      obtain ⟨h1, h2, h3, h4⟩ := hInv
      refine ⟨h1, h2, keys_aset_nodup _ _ h3, ?_⟩
      intro m' hm'
      by_cases hmm : m' = market_id
      · subst hmm
        exact absurd hm' hsub
      · rw [aget_aset_ne _ _ hmm]
        exact h4 m' hm'

theorem inv_subscribe (spawner : Spawner) (market_id : String) (ws : Nat)
    {s : MState} (hInv : Inv s) : Inv (subscribe spawner market_id ws s) := by
  cases hc : aget s.subscriptions market_id with
  | none =>
    simp only [subscribe, hc, Option.getD_none, List.not_mem_nil, if_false,
      List.nil_append, List.length_singleton, if_pos]
    refine inv_start_polling spawner market_id
      (inv_aset_subs market_id hInv (by simp) (List.nodup_singleton ws)) ?_
    rw [aget_aset_self]
    exact fun h => Option.noConfusion h
  | some c =>
    obtain ⟨hcne, hcnd⟩ := hInv.1 market_id c hc
    simp only [subscribe, hc, Option.getD_some]
    by_cases hw : ws ∈ c
    · simp only [if_pos hw]
      by_cases hlen : c.length = 1
      · simp only [if_pos hlen]
        refine inv_start_polling spawner market_id
          (inv_aset_subs market_id hInv hcne hcnd) ?_
        rw [aget_aset_self]
        exact fun h => Option.noConfusion h
      · simp only [if_neg hlen]
        exact inv_aset_subs market_id hInv hcne hcnd
    · simp only [if_neg hw]
      have hlen : ¬ (c ++ [ws]).length = 1 := by
        have : c.length ≠ 0 := fun h => hcne (List.length_eq_zero.mp h)
        simp only [List.length_append, List.length_singleton]
        omega
      have hnd2 : (c ++ [ws]).Nodup := by
        rw [List.nodup_append]
        refine ⟨hcnd, List.nodup_singleton ws, ?_⟩
        intro a ha hb
        rw [List.mem_singleton] at hb
        subst hb
        exact hw ha
      simp only [if_neg hlen]
      exact inv_aset_subs market_id hInv (by simp) hnd2

theorem inv_unsubscribe (market_id : String) (ws : Nat) {s : MState}
    (hInv : Inv s) : Inv (unsubscribe market_id ws s) := by
  cases hc : aget s.subscriptions market_id with
  | none => simpa only [unsubscribe, hc] using hInv
  | some c =>
    obtain ⟨hcne, hcnd⟩ := hInv.1 market_id c hc
    simp only [unsubscribe, hc]
    by_cases hlen : (c.erase ws).length = 0
    · simp only [if_pos hlen]
      obtain ⟨h1, h2, h3, h4⟩ := hInv
      refine ⟨?_, ?_, ?_, ?_⟩
      · intro m' subs' hm'
        rw [stop_polling_subscriptions] at hm'
        by_cases hmm : m' = market_id
        · subst hmm
          rw [aget_adel_self] at hm'
          cases hm'
        · rw [aget_adel_ne _ hmm, aget_aset_ne _ _ hmm] at hm'
          exact h1 m' subs' hm'
      · rw [stop_polling_subscriptions]
        exact keys_adel_nodup _ (keys_aset_nodup _ _ h2)
      · exact stop_polling_keys_nodup market_id h3
      · intro m' _
        by_cases hmm : m' = market_id
        · rw [hmm]
          exact stop_polling_tasks_none market_id _
        · rw [stop_polling_tasks_ne _ hmm]
          rename_i hm'
          rw [stop_polling_subscriptions, aget_adel_ne _ hmm,
            aget_aset_ne _ _ hmm] at hm'
          exact h4 m' hm'
    · simp only [if_neg hlen]
      exact inv_aset_subs market_id hInv
        (fun h => hlen (by rw [h]; rfl)) (hcnd.erase ws)

theorem inv_unsubscribe_from_all (ws : Nat) {s : MState} (hInv : Inv s) :
    Inv (unsubscribe_from_all ws s) := by
  unfold unsubscribe_from_all
  refine foldl_preserve Inv ?_ _ s hInv
  intro s' market_id hs'
  cases h : aget s'.subscriptions market_id with
  | none => exact hs'
  | some subs =>
    by_cases hw : ws ∈ subs
    · simpa only [if_pos hw] using inv_unsubscribe market_id ws hs'
    · simpa only [if_neg hw] using hs'

theorem inv_broadcast (market_id : String) (deads : List Nat) {s : MState}
    (hInv : Inv s) : Inv (broadcast market_id deads s).1 := by
  unfold broadcast
  cases h : aget s.subscriptions market_id with
  | none => exact hInv
  | some conns =>
    refine foldl_preserve Inv ?_ _ s hInv
    intro s' w hs'
    exact inv_unsubscribe market_id w hs'

theorem inv_runM (spawner : Spawner) (ops : List MOp) : Inv (runM spawner ops) := by
  unfold runM
  refine foldl_preserve Inv ?_ ops MState.init ?_
  · intro s op hs
    cases op with
    | sub market_id ws => exact inv_subscribe spawner market_id ws hs
    | unsub market_id ws => exact inv_unsubscribe market_id ws hs
    | unsubAll ws => exact inv_unsubscribe_from_all ws hs
    | bcast market_id deads => exact inv_broadcast market_id deads hs
  · refine ⟨?_, ?_, ?_, ?_⟩ <;> simp [MState.init, aget]

theorem tm_subscribe {spawner : Spawner}
    (htotal : ∀ m n, (spawner m n).isSome) (market_id : String) (ws : Nat)
    {s : MState} (hInv : Inv s) (htm : TasksMatch s) :
    TasksMatch (subscribe spawner market_id ws s) := by
  cases hc : aget s.subscriptions market_id with
  | none =>
    have hpt : aget s.polling_tasks market_id = none := hInv.2.2.2 market_id hc
    simp only [subscribe, hc, Option.getD_none, List.not_mem_nil, if_false,
      List.nil_append, List.length_singleton, if_pos]
    unfold start_polling
    simp only [hpt]
    cases hsp : spawner market_id s.spawn_count with
    | none => exact absurd (htotal market_id s.spawn_count) (by simp [hsp])
    | some t =>
      intro m' subs' hm'
      by_cases hmm : m' = market_id
      · rw [hmm, aget_aset_self]
        rfl
      · rw [aget_aset_ne _ _ hmm]
        rw [aget_aset_ne _ _ hmm] at hm'
        exact htm m' subs' hm'
  | some c =>
    obtain ⟨hcne, hcnd⟩ := hInv.1 market_id c hc
    have hpt : (aget s.polling_tasks market_id).isSome := htm market_id c hc
    obtain ⟨t, ht⟩ := Option.isSome_iff_exists.mp hpt
    have htm1 : ∀ cur2 : List Nat,
        TasksMatch { s with subscriptions := aset s.subscriptions market_id cur2 } := by
      intro cur2 m' subs' hm'
      by_cases hmm : m' = market_id
      · rw [hmm]
        exact htm market_id c hc
      · rw [aget_aset_ne _ _ hmm] at hm'
        exact htm m' subs' hm'
    simp only [subscribe, hc, Option.getD_some]
    by_cases hw : ws ∈ c
    · simp only [if_pos hw]
      by_cases hlen : c.length = 1
      · simp only [if_pos hlen]
        unfold start_polling
        simp only [ht]
        exact htm1 c
      · simp only [if_neg hlen]
        exact htm1 c
    · have hlen : ¬ (c ++ [ws]).length = 1 := by
        have : c.length ≠ 0 := fun h => hcne (List.length_eq_zero.mp h)
        simp only [List.length_append, List.length_singleton]
        omega
      simp only [if_neg hw, if_neg hlen]
      exact htm1 (c ++ [ws])

theorem tm_unsubscribe (market_id : String) (ws : Nat) {s : MState}
    (htm : TasksMatch s) : TasksMatch (unsubscribe market_id ws s) := by
  cases hc : aget s.subscriptions market_id with
  | none => simpa only [unsubscribe, hc] using htm
  | some c =>
    simp only [unsubscribe, hc]
    by_cases hlen : (c.erase ws).length = 0
    · simp only [if_pos hlen]
      intro m' subs' hm'
      rw [stop_polling_subscriptions] at hm'
      by_cases hmm : m' = market_id
      · rw [hmm, aget_adel_self] at hm'
        cases hm'
      · rw [aget_adel_ne _ hmm, aget_aset_ne _ _ hmm] at hm'
        rw [stop_polling_tasks_ne _ hmm]
        exact htm m' subs' hm'
    · simp only [if_neg hlen]
      intro m' subs' hm'
      by_cases hmm : m' = market_id
      · rw [hmm]
        exact htm market_id c hc
      · rw [aget_aset_ne _ _ hmm] at hm'
        exact htm m' subs' hm'

theorem tm_unsubscribe_from_all (ws : Nat) {s : MState} (htm : TasksMatch s) :
    TasksMatch (unsubscribe_from_all ws s) := by
  unfold unsubscribe_from_all
  refine foldl_preserve TasksMatch ?_ _ s htm
  intro s' market_id hs'
  cases h : aget s'.subscriptions market_id with
  | none => exact hs'
  | some subs =>
    by_cases hw : ws ∈ subs
    · simpa only [if_pos hw] using tm_unsubscribe market_id ws hs'
    · simpa only [if_neg hw] using hs'

theorem tm_broadcast (market_id : String) (deads : List Nat) {s : MState}
    (htm : TasksMatch s) : TasksMatch (broadcast market_id deads s).1 := by
  unfold broadcast
  cases h : aget s.subscriptions market_id with
  | none => exact htm
  | some conns =>
    refine foldl_preserve TasksMatch ?_ _ s htm
    intro s' w hs'
    exact tm_unsubscribe market_id w hs'

theorem tm_runM {spawner : Spawner} (htotal : ∀ m n, (spawner m n).isSome)
    (ops : List MOp) : TasksMatch (runM spawner ops) := by
  have h : Inv (runM spawner ops) ∧ TasksMatch (runM spawner ops) := by
    unfold runM
    refine foldl_preserve (fun s => Inv s ∧ TasksMatch s) ?_ ops MState.init ?_
    · intro s op hs
      cases op with
      | sub market_id ws =>
        exact ⟨inv_subscribe spawner market_id ws hs.1,
          tm_subscribe htotal market_id ws hs.1 hs.2⟩
      | unsub market_id ws =>
        exact ⟨inv_unsubscribe market_id ws hs.1, tm_unsubscribe market_id ws hs.2⟩
      | unsubAll ws =>
        exact ⟨inv_unsubscribe_from_all ws hs.1, tm_unsubscribe_from_all ws hs.2⟩
      | bcast market_id deads =>
        exact ⟨inv_broadcast market_id deads hs.1, tm_broadcast market_id deads hs.2⟩
    · constructor
      · refine ⟨?_, ?_, ?_, ?_⟩ <;> simp [MState.init, aget]
      · intro m subs h
        simp [MState.init, aget] at h
  exact h.2

theorem subscribe_spawn_count (spawner : Spawner) (market_id : String) (ws : Nat)
    {s : MState} (hInv : Inv s) (htm : TasksMatch s) :
    (subscribe spawner market_id ws s).spawn_count
      = if aget s.subscriptions market_id = none then s.spawn_count + 1
        else s.spawn_count := by
  cases hc : aget s.subscriptions market_id with
  | none =>
    rw [if_pos rfl]
    have hpt : aget s.polling_tasks market_id = none := hInv.2.2.2 market_id hc
    simp only [subscribe, hc, Option.getD_none, List.not_mem_nil, if_false,
      List.nil_append, List.length_singleton, if_pos]
    unfold start_polling
    simp only [hpt]
    cases hsp : spawner market_id s.spawn_count with
    | none => rfl
    | some t => rfl
  | some c =>
    rw [if_neg (by simp [hc])]
    obtain ⟨hcne, hcnd⟩ := hInv.1 market_id c hc
    have hpt : (aget s.polling_tasks market_id).isSome := htm market_id c hc
    obtain ⟨t, ht⟩ := Option.isSome_iff_exists.mp hpt
    simp only [subscribe, hc, Option.getD_some]
    by_cases hw : ws ∈ c
    · simp only [if_pos hw]
      by_cases hlen : c.length = 1
      · simp only [if_pos hlen]
        unfold start_polling
        simp only [ht]
      · simp only [if_neg hlen]
    · have hlen : ¬ (c ++ [ws]).length = 1 := by
        have : c.length ≠ 0 := fun h => hcne (List.length_eq_zero.mp h)
        simp only [List.length_append, List.length_singleton]
        omega
      simp only [if_neg hw, if_neg hlen]

theorem notsub_unsubscribe_self (market_id : String) (ws : Nat) {s : MState}
    (hInv : Inv s) : NotSub market_id ws (unsubscribe market_id ws s) := by
  cases hc : aget s.subscriptions market_id with
  | none =>
    simp only [unsubscribe, hc]
    intro conns h
    rw [hc] at h
    exact Option.noConfusion h
  | some c =>
    obtain ⟨hcne, hcnd⟩ := hInv.1 market_id c hc
    simp only [unsubscribe, hc]
    by_cases hlen : (c.erase ws).length = 0
    · simp only [if_pos hlen]
      intro conns h
      rw [stop_polling_subscriptions, aget_adel_self] at h
      exact Option.noConfusion h
    · simp only [if_neg hlen]
      intro conns h
      rw [aget_aset_self] at h
      have h2 := Option.some.inj h
      subst h2
      exact hcnd.not_mem_erase

theorem notsub_unsubscribe_pres (market_id : String) (ws w' : Nat) {s : MState}
    (h : NotSub market_id ws s) :
    NotSub market_id ws (unsubscribe market_id w' s) := by
  cases hc : aget s.subscriptions market_id with
  | none => simpa only [unsubscribe, hc] using h
  | some c =>
    have hws : ws ∉ c := h c hc
    simp only [unsubscribe, hc]
    by_cases hlen : (c.erase w').length = 0
    · simp only [if_pos hlen]
      intro conns hcc
      rw [stop_polling_subscriptions, aget_adel_self] at hcc
      exact Option.noConfusion hcc
    · simp only [if_neg hlen]
      intro conns hcc
      rw [aget_aset_self] at hcc
      have h2 := Option.some.inj hcc
      subst h2
      intro hmem
      exact hws (List.erase_subset _ _ hmem)

theorem fold_unsub_notsub (market_id : String) (ds : List Nat) :
    ∀ s : MState, Inv s → ∀ ws, (ws ∈ ds ∨ NotSub market_id ws s) →
      NotSub market_id ws
        (ds.foldl (fun acc w => unsubscribe market_id w acc) s) := by
  induction ds with
  | nil =>
    intro s hInv ws h
    rcases h with h | h
    · exact absurd h (List.not_mem_nil ws)
    · exact h
  | cons d ds ih =>
    intro s hInv ws h
    simp only [List.foldl_cons]
    apply ih (unsubscribe market_id d s) (inv_unsubscribe market_id d hInv)
    rcases h with h | h
    · rcases List.mem_cons.mp h with rfl | h2
      · exact Or.inr (notsub_unsubscribe_self market_id ws hInv)
      · exact Or.inl h2
    · exact Or.inr (notsub_unsubscribe_pres market_id ws d h)

theorem unsub_subs_frame {market_id m' : String} (h : m' ≠ market_id)
    (ws : Nat) (s : MState) :
    aget (unsubscribe market_id ws s).subscriptions m'
      = aget s.subscriptions m' := by
  cases hc : aget s.subscriptions market_id with
  | none => simp only [unsubscribe, hc]
  | some c =>
    simp only [unsubscribe, hc]
    by_cases hlen : (c.erase ws).length = 0
    · simp only [if_pos hlen]
      rw [stop_polling_subscriptions, aget_adel_ne _ h, aget_aset_ne _ _ h]
    · simp only [if_neg hlen]
      rw [aget_aset_ne _ _ h]

/-- C5 counterexample. An input record with `yes_bid = 0` present and
`yes_ask = 60` has both cent fields present, yet the normalized yes price is
`0.60` (the ask alone), not the midpoint `0.30`: Python truthiness makes the
code treat the present zero bid as missing (kalshi.py line 255). -/
theorem kalshi_normalize_counterexample :
    kalshiYesPrice (some 0) (some 60) = 60 / 100
    ∧ kalshiYesPrice (some 0) (some 60) ≠ ((0 : ℚ) / 100 + 60 / 100) / 2 := by
  constructor <;> norm_num [kalshiYesPrice, kalshiCents]

/-- C5 (amended). When both cent fields are present with nonzero values, the
yes price is the midpoint of `yes_bid/100` and `yes_ask/100`; the no price is
`1 - yes_price` whenever the yes price is nonzero (Python truthiness), else
`0`; for `yes_bid=40, yes_ask=60` the prices are `0.50` and `0.50`. -/
theorem kalshi_normalize_midpoint :
    (∀ b a : Nat, b ≠ 0 → a ≠ 0 →
        kalshiYesPrice (some b) (some a) = ((b : ℚ) / 100 + (a : ℚ) / 100) / 2)
    ∧ (∀ fb fa : Option Nat, kalshiYesPrice fb fa ≠ 0 →
        kalshiNoPrice fb fa = 1 - kalshiYesPrice fb fa)
    ∧ (∀ fb fa : Option Nat, kalshiYesPrice fb fa = 0 → kalshiNoPrice fb fa = 0)
    ∧ kalshiYesPrice (some 40) (some 60) = 1 / 2
    ∧ kalshiNoPrice (some 40) (some 60) = 1 / 2 := by
  refine ⟨?_, ?_, ?_, ?_, ?_⟩
  · intro b a hb ha
    have hb' : ((b : ℚ) / 100) ≠ 0 :=
      div_ne_zero (Nat.cast_ne_zero.mpr hb) (by norm_num)
    have ha' : ((a : ℚ) / 100) ≠ 0 :=
      div_ne_zero (Nat.cast_ne_zero.mpr ha) (by norm_num)
    simp [kalshiYesPrice, kalshiCents, hb, ha, hb', ha']
  · intro fb fa h
    simp only [kalshiNoPrice]
    rw [if_pos h]
  · intro fb fa h
    simp only [kalshiNoPrice]
    rw [if_neg (by simp [h])]
  · norm_num [kalshiYesPrice, kalshiCents]
  · norm_num [kalshiNoPrice, kalshiYesPrice, kalshiCents]

theorem kalshi_normalize_midpoint_witness :
    kalshiYesPrice (some 30) (some 50) = ((30 : ℚ) / 100 + (50 : ℚ) / 100) / 2
    ∧ kalshiNoPrice (some 40) (some 60) = 1 - kalshiYesPrice (some 40) (some 60) :=
  ⟨kalshi_normalize_midpoint.1 30 50 (by decide) (by decide),
    kalshi_normalize_midpoint.2.1 (some 40) (some 60)
      (by norm_num [kalshiYesPrice, kalshiCents])⟩

/-- C7 counterexample. On a book with only a bid side (one bid at `0.5`,
no asks), the Kalshi connector records no quote (kalshi.py line 321:
`if yes_bids and yes_asks`), whereas the claim requires the degenerate quote
`(0.5, 0.5, 0.5)` from both connector variants; the Polymarket connector
does record it. -/
theorem kalshi_single_sided_counterexample :
    kalshiDeriveQuote [⟨1/2, 10⟩] [] = none
    ∧ kalshiDeriveQuote [⟨1/2, 10⟩] [] ≠ some (1/2, 1/2, 1/2)
    ∧ polyDeriveQuote [⟨1/2, 10⟩] [] = some (1/2, 1/2, 1/2) := by
  refine ⟨rfl, ?_, rfl⟩
  decide

/-- C7 (amended). When both book sides are nonempty, both connectors record
mid = average of the best bid and best ask, with bid/ask the best levels
(the head of the sorted side, which bounds every level of that side and
belongs to it). When only one side exists, the Polymarket connector records
that side's best price as mid, bid and ask, while the Kalshi connector
records no quote at all. -/
theorem poll_orderbook_derived_quote :
    (∀ (bids asks : List OrderBookLevel) (bb ba : OrderBookLevel)
        (bt ta : List OrderBookLevel),
        sortLevelsDesc bids = bb :: bt → sortLevelsAsc asks = ba :: ta →
          polyDeriveQuote bids asks = some ((bb.p + ba.p) / 2, bb.p, ba.p)
          ∧ kalshiDeriveQuote bids asks = some ((bb.p + ba.p) / 2, bb.p, ba.p)
          ∧ (∀ x ∈ bids, x.p ≤ bb.p) ∧ bb ∈ bids
          ∧ (∀ x ∈ asks, ba.p ≤ x.p) ∧ ba ∈ asks)
    ∧ (∀ (bids : List OrderBookLevel) (bb : OrderBookLevel)
        (bt : List OrderBookLevel),
        sortLevelsDesc bids = bb :: bt →
          polyDeriveQuote bids [] = some (bb.p, bb.p, bb.p)
          ∧ kalshiDeriveQuote bids [] = none
          ∧ (∀ x ∈ bids, x.p ≤ bb.p) ∧ bb ∈ bids)
    ∧ (∀ (asks : List OrderBookLevel) (ba : OrderBookLevel)
        (ta : List OrderBookLevel),
        sortLevelsAsc asks = ba :: ta →
          polyDeriveQuote [] asks = some (ba.p, ba.p, ba.p)
          ∧ kalshiDeriveQuote [] asks = none
          ∧ (∀ x ∈ asks, ba.p ≤ x.p) ∧ ba ∈ asks) := by
  refine ⟨?_, ?_, ?_⟩
  · intro bids asks bb ba bt ta hb ha
    obtain ⟨hmaxb, hmemb⟩ := sortLevelsDesc_head_max hb
    obtain ⟨hmina, hmema⟩ := sortLevelsAsc_head_min ha
    refine ⟨?_, ?_, hmaxb, hmemb, hmina, hmema⟩
    · simp [polyDeriveQuote, hb, ha]
    · simp [kalshiDeriveQuote, hb, ha]
  · intro bids bb bt hb
    obtain ⟨hmaxb, hmemb⟩ := sortLevelsDesc_head_max hb
    have hnil : sortLevelsAsc [] = [] := rfl
    refine ⟨?_, ?_, hmaxb, hmemb⟩
    · simp [polyDeriveQuote, hb, hnil]
    · simp [kalshiDeriveQuote, hb, hnil]
  · intro asks ba ta ha
    obtain ⟨hmina, hmema⟩ := sortLevelsAsc_head_min ha
    have hnil : sortLevelsDesc [] = [] := rfl
    refine ⟨?_, ?_, hmina, hmema⟩
    · simp [polyDeriveQuote, hnil, ha]
    · simp [kalshiDeriveQuote, hnil, ha]

theorem poll_orderbook_derived_quote_witness :
    polyDeriveQuote [⟨2/5, 1⟩] [⟨3/5, 1⟩]
        = some (((2 : ℚ)/5 + 3/5) / 2, 2/5, 3/5)
    ∧ kalshiDeriveQuote [⟨2/5, 1⟩] [⟨3/5, 1⟩]
        = some (((2 : ℚ)/5 + 3/5) / 2, 2/5, 3/5) :=
  ⟨(poll_orderbook_derived_quote.1 [⟨2/5, 1⟩] [⟨3/5, 1⟩] ⟨2/5, 1⟩ ⟨3/5, 1⟩ [] []
      rfl rfl).1,
    (poll_orderbook_derived_quote.1 [⟨2/5, 1⟩] [⟨3/5, 1⟩] ⟨2/5, 1⟩ ⟨3/5, 1⟩ [] []
      rfl rfl).2.1⟩

/-- C1 counterexample. The spawn decision is not made by checking the 0→1
set-size transition: `subscribe` checks the post-add size `len(...) == 1`
and `_start_polling` checks whether a handle is already recorded
(manager.py lines 30 and 52). With a spawner whose first invocation returns
no task (main.py's spawner returns `None` while the market is missing from
the catalog), a second subscribe by the same connection leaves the set size
at 1 (no 0→1 transition) yet invokes the spawner again and records a
poller. -/
theorem spawn_boundary_counterexample :
    (runM spawner0 [MOp.sub "A" 0]).spawn_count = 1
    ∧ aget (runM spawner0 [MOp.sub "A" 0]).subscriptions "A" = some [0]
    ∧ aget (runM spawner0 [MOp.sub "A" 0]).polling_tasks "A" = none
    ∧ (runM spawner0 [MOp.sub "A" 0, MOp.sub "A" 0]).spawn_count = 2
    ∧ aget (runM spawner0 [MOp.sub "A" 0, MOp.sub "A" 0]).subscriptions "A" = some [0]
    ∧ aget (runM spawner0 [MOp.sub "A" 0, MOp.sub "A" 0]).polling_tasks "A" = some 1 := by
  decide

/-- C1 (amended). On every reachable registry state, provided the spawner
always returns a handle: a `subscribe` invokes the spawner exactly when the
market had no subscriber set (the 0→1 boundary), so a second subscribe —
by any connection — to an already-subscribed market does not invoke it; and
at most one poller handle is recorded per market. The decision combines the
post-add size check `len == 1` with `_start_polling`'s check that no handle
is recorded, not the 0→1 transition alone. -/
theorem subscribe_spawns_once (spawner : Spawner)
    (htotal : ∀ m n, (spawner m n).isSome) (ops : List MOp)
    (market_id : String) (ws : Nat) :
    ((subscribe spawner market_id ws (runM spawner ops)).spawn_count
        = if aget (runM spawner ops).subscriptions market_id = none
          then (runM spawner ops).spawn_count + 1
          else (runM spawner ops).spawn_count)
    ∧ (∀ m' : String,
        ((runM spawner ops).polling_tasks.filter (fun p => p.1 == m')).length ≤ 1)
    ∧ (∀ subs, aget (runM spawner ops).subscriptions market_id = some subs →
        (subscribe spawner market_id ws (runM spawner ops)).spawn_count
          = (runM spawner ops).spawn_count) := by
  have hInv := inv_runM spawner ops
  have htm := tm_runM htotal ops
  have h1 := subscribe_spawn_count spawner market_id ws hInv htm
  refine ⟨h1, ?_, ?_⟩
  · intro m'
    exact filter_key_length_le_one m' hInv.2.2.1
  · intro subs hsubs
    rw [h1, if_neg (by simp [hsubs])]

theorem subscribe_spawns_once_witness :
    (subscribe spawner1 "A" 1 (runM spawner1 [MOp.sub "A" 0])).spawn_count
      = (runM spawner1 [MOp.sub "A" 0]).spawn_count :=
  (subscribe_spawns_once spawner1 (fun _ _ => rfl) [MOp.sub "A" 0] "A" 1).2.2
    [0] (by decide)

/-- C2. In every registry state reachable from the empty one by subscribe,
unsubscribe, unsubscribe_from_all and broadcast, a market whose subscriber
set is empty or absent has no poller task; and an `unsubscribe` that empties
a market's subscriber set cancels the recorded handle (the cancellation is
awaited inside `_stop_polling`), discards it, and removes the empty set
entry. -/
theorem no_poller_without_subscribers :
    (∀ (spawner : Spawner) (ops : List MOp) (market_id : String),
        (aget (runM spawner ops).subscriptions market_id = none
          ∨ aget (runM spawner ops).subscriptions market_id = some []) →
        aget (runM spawner ops).polling_tasks market_id = none)
    ∧ (∀ (s : MState) (market_id : String) (ws t : Nat),
        aget s.subscriptions market_id = some [ws] →
        aget s.polling_tasks market_id = some t →
          aget (unsubscribe market_id ws s).subscriptions market_id = none
          ∧ aget (unsubscribe market_id ws s).polling_tasks market_id = none
          ∧ t ∈ (unsubscribe market_id ws s).cancelled) := by
  constructor
  · intro spawner ops market_id h
    have hInv := inv_runM spawner ops
    rcases h with h | h
    · exact hInv.2.2.2 market_id h
    · exact absurd rfl (hInv.1 market_id [] h).1
  · intro s market_id ws t h1 h2
    have herase : ([ws] : List Nat).erase ws = [] := by simp
    simp only [unsubscribe, h1, herase, List.length_nil, if_pos]
    refine ⟨?_, ?_, ?_⟩
    · rw [stop_polling_subscriptions, aget_adel_self]
    · exact stop_polling_tasks_none market_id _
    · unfold stop_polling
      simp only [h2]
      simp

theorem no_poller_without_subscribers_witness :
    aget (runM spawner1 [MOp.sub "A" 0, MOp.unsub "A" 0]).polling_tasks "A" = none
    ∧ 9 ∈ (unsubscribe "A" 5 ⟨[("A", [5])], [("A", 9)], 1, []⟩).cancelled :=
  ⟨no_poller_without_subscribers.1 spawner1 [MOp.sub "A" 0, MOp.unsub "A" 0] "A"
      (Or.inl (by decide)),
    (no_poller_without_subscribers.2 ⟨[("A", [5])], [("A", 9)], 1, []⟩ "A" 5 9
      (by decide) (by decide)).2.2⟩

/-- C6 counterexample. Connection 7 is subscribed to markets "A" and "B";
its send fails during a broadcast to "A". It is removed from "A" only: it
stays subscribed to "B", contradicting "unsubscribed from every market it
was subscribed to" (manager.py line 82 unsubscribes dead sockets from the
broadcast market only). -/
theorem broadcast_dead_socket_counterexample :
    aget ((broadcast "A" [7] (runM spawner1 [MOp.sub "A" 7, MOp.sub "B" 7])).1).subscriptions
        "A" = none
    ∧ aget ((broadcast "A" [7] (runM spawner1 [MOp.sub "A" 7, MOp.sub "B" 7])).1).subscriptions
        "B" = some [7] := by
  decide

/-- C6 (amended). On every reachable registry state, `broadcast` delivers
the payload exactly to the subscribed connections whose send succeeds, it
never raises (the model is a total function; send failures are caught and
only collected), and every connection whose send fails is afterwards no
longer a subscriber of the broadcast market — its subscriptions to other
markets are untouched. -/
theorem broadcast_behavior (spawner : Spawner) (ops : List MOp)
    (market_id : String) (deads : List Nat) :
    (∀ conns, aget (runM spawner ops).subscriptions market_id = some conns →
        (broadcast market_id deads (runM spawner ops)).2
          = conns.filter (fun c => !(deads.contains c)))
    ∧ (∀ ws, ws ∈ deads →
        ∀ conns', aget (broadcast market_id deads (runM spawner ops)).1.subscriptions
            market_id = some conns' → ws ∉ conns')
    ∧ (∀ m', m' ≠ market_id →
        aget (broadcast market_id deads (runM spawner ops)).1.subscriptions m'
          = aget (runM spawner ops).subscriptions m')
    ∧ (aget (runM spawner ops).subscriptions market_id = none →
        (broadcast market_id deads (runM spawner ops)).1 = runM spawner ops
        ∧ (broadcast market_id deads (runM spawner ops)).2 = []) := by
  have hInv := inv_runM spawner ops
  refine ⟨?_, ?_, ?_, ?_⟩
  · intro conns h
    simp only [broadcast, h]
  · cases hsub : aget (runM spawner ops).subscriptions market_id with
    | none =>
      intro ws hws conns' h'
      simp only [broadcast, hsub] at h'
      exact Option.noConfusion h'
    | some conns =>
      intro ws hws conns' h'
      simp only [broadcast, hsub] at h'
      refine fold_unsub_notsub market_id _ (runM spawner ops) hInv ws ?_ conns' h'
      by_cases hin : ws ∈ conns
      · refine Or.inl (List.mem_filter.mpr ⟨hin, ?_⟩)
        simpa using hws
      · refine Or.inr ?_
        intro c0 hc0
        rw [hsub] at hc0
        have h2 := Option.some.inj hc0
        subst h2
        exact hin
  · intro m' hm'
    cases hsub : aget (runM spawner ops).subscriptions market_id with
    | none => simp only [broadcast, hsub]
    | some conns =>
      simp only [broadcast, hsub]
      refine foldl_preserve
        (fun acc : MState =>
          aget acc.subscriptions m' = aget (runM spawner ops).subscriptions m')
        ?_ _ _ rfl
      intro s' w hs'
      exact (unsub_subs_frame hm' w s').trans hs'
  · intro h
    simp [broadcast, h]

theorem broadcast_behavior_witness :
    (broadcast "A" [5] (runM spawner1 [MOp.sub "A" 0, MOp.sub "A" 5])).2 = [0]
    ∧ aget (broadcast "A" [5] (runM spawner1 [MOp.sub "A" 0, MOp.sub "A" 5])).1.subscriptions
        "B" = aget (runM spawner1 [MOp.sub "A" 0, MOp.sub "A" 5]).subscriptions "B" := by
  have h := broadcast_behavior spawner1 [MOp.sub "A" 0, MOp.sub "A" 5] "A" [5]
  refine ⟨?_, h.2.2.1 "B" (by decide)⟩
  rw [h.1 [0, 5] (by decide)]
  decide

/-- C9. Calling `unsubscribe` on a reachable registry state for a market
with no subscriber set, or for a connection not in the market's subscriber
set, returns (raises nothing — the model is a total function) and leaves
the entire state, subscriber sets and poller handles alike, unchanged. -/
theorem unsubscribe_missing_noop (spawner : Spawner) (ops : List MOp)
    (market_id : String) (ws : Nat) :
    (aget (runM spawner ops).subscriptions market_id = none →
        unsubscribe market_id ws (runM spawner ops) = runM spawner ops)
    ∧ (∀ subs, aget (runM spawner ops).subscriptions market_id = some subs →
        ws ∉ subs →
        unsubscribe market_id ws (runM spawner ops) = runM spawner ops) := by
  constructor
  · intro h
    simp only [unsubscribe, h]
  · intro subs h hw
    have hInv := inv_runM spawner ops
    obtain ⟨hne, hnd⟩ := hInv.1 market_id subs h
    have herase : subs.erase ws = subs := List.erase_of_not_mem hw
    have hlen : ¬ subs.length = 0 := fun h0 => hne (List.length_eq_zero.mp h0)
    simp only [unsubscribe, h, herase, if_neg hlen]
    rw [aset_eq_of_aget h]

theorem unsubscribe_missing_noop_witness :
    unsubscribe "B" 3 (runM spawner1 [MOp.sub "A" 0]) = runM spawner1 [MOp.sub "A" 0]
    ∧ unsubscribe "A" 3 (runM spawner1 [MOp.sub "A" 0]) = runM spawner1 [MOp.sub "A" 0] :=
  ⟨(unsubscribe_missing_noop spawner1 [MOp.sub "A" 0] "B" 3).1 (by decide),
    (unsubscribe_missing_noop spawner1 [MOp.sub "A" 0] "A" 3).2 [0] (by decide)
      (by decide)⟩

end PredDash
